import Mathlib

/-!
Verification of the numeric core of the EchoGenesis repository
(`backend/app/entanglement_metrics.py`, `backend/app/optimizers.py`,
`backend/app/pde_hamiltonians.py`) against its natural-language specification.

Shallow-embedding conventions used throughout this file:

* Python floats are modelled as exact numbers: `ℚ` wherever the code only
  performs field operations and comparisons (so every definition stays
  executable), and `ℝ` for the transcendental control-field schedules
  (`exp`, `sin`, `cos`, `tanh`), whose claims are analytic identities.
* Complex numbers are modelled as pairs `(re, im)` of rationals.
* numpy arrays are modelled as `List`s; a fallible numpy/scipy operation is
  modelled as an `Except String` value, `.error` standing for a raised
  exception.
* The scipy spectral routines (`sqrtm`, `eigvalsh`, `logm`) that back the
  individual entanglement metrics are not re-implemented; where a claim's
  truth does not depend on the values those routines produce, the metric in
  question is passed in as an arbitrary (possibly failing) function, and the
  claim is settled for every possible behaviour of that function.
-/

/-- Complex numbers with rational coordinates, as `(re, im)` pairs;
the executable model of Python `complex` / numpy `complex128` values. -/
def Cq : Type := ℚ × ℚ

instance : DecidableEq Cq := instDecidableEqProd

/-- Real part. -/
def cre (z : Cq) : ℚ := z.1

/-- Complex addition. -/
def cadd (z w : Cq) : Cq := (z.1 + w.1, z.2 + w.2)

/-- Complex subtraction. -/
def csub (z w : Cq) : Cq := (z.1 - w.1, z.2 - w.2)

/-- Complex multiplication. -/
def cmul (z w : Cq) : Cq := (z.1 * w.1 - z.2 * w.2, z.1 * w.2 + z.2 * w.1)

/-- Complex conjugate. -/
def cconj (z : Cq) : Cq := (z.1, -z.2)

/-- The complex zero. -/
def czero : Cq := ((0 : ℚ), (0 : ℚ))

/-- Model of `np.outer(state_vector, state_vector.conj())`:
`rho[i][j] = state[i] * conj(state[j])`
(`entanglement_metrics.py`, line 35). -/
def npOuter (state : List Cq) : List (List Cq) :=
  state.map (fun a => state.map (fun b => cmul a (cconj b)))

/-- An n-axis numpy array all of whose axes have extent 2, as produced by
`rho.reshape(dims + dims)` with `dims = [2] * total_qubits`: a rank together
with the entry at each list of axis indices (booleans, since every axis has
extent 2). -/
structure QTensor where
  rank : ℕ
  data : List Bool → Cq

/-- Error text standing for numpy `ValueError: cannot reshape array`. -/
def errReshape : String := "cannot reshape array"

/-- Error text standing for numpy `AxisError` raised by `np.trace`. -/
def errAxis : String := "axis out of bounds"

/-- Big-endian interpretation of a list of bits (axis 0 of the reshaped
density matrix is the most significant bit, numpy C order). -/
def bitsToNat (bs : List Bool) : ℕ :=
  bs.foldl (fun acc b => 2 * acc + (if b then 1 else 0)) 0

/-- The `width`-bit big-endian representation of `n`. -/
def natToBits (width n : ℕ) : List Bool :=
  (List.range width).map (fun i => n / 2 ^ (width - 1 - i) % 2 = 1)

/-- Model of `rho.reshape(dims + dims)` with `dims = [2] * n`
(`entanglement_metrics.py`, line 45): succeeds only when `rho` really is a
`2^n × 2^n` matrix, as numpy's reshape does. -/
def reshapeToTensor (rho : List (List Cq)) (n : ℕ) : Except String QTensor :=
  if rho.length = 2 ^ n ∧ rho.all (fun row => row.length = 2 ^ n) then
    .ok ⟨2 * n, fun bs =>
      (rho.getD (bitsToNat (bs.take n)) []).getD (bitsToNat (bs.drop n)) czero⟩
  else .error errReshape

/-- Insert a bit at a given position (used to reconstruct a full axis-index
list from a contracted one). -/
def insertAt : ℕ → Bool → List Bool → List Bool
  | 0, b, l => b :: l
  | _ + 1, b, [] => [b]
  | n + 1, b, x :: l => x :: insertAt n b l

/-- Model of `np.trace(t, axis1 = a1, axis2 = a2)` on an all-extent-2 array:
sums the diagonal of axes `a1 < a2` and removes both axes; errors when an
axis is out of bounds, as numpy does. -/
def npTrace (t : QTensor) (a1 a2 : ℕ) : Except String QTensor :=
  if a1 < t.rank ∧ a2 < t.rank ∧ a1 < a2 then
    .ok ⟨t.rank - 2, fun bs =>
      cadd (t.data (insertAt a1 false (insertAt (a2 - 1) false bs)))
           (t.data (insertAt a1 true (insertAt (a2 - 1) true bs)))⟩
  else .error errAxis

/-- The contraction loop of `partial_trace` (`entanglement_metrics.py`,
lines 48-51): for each traced-out qubit, from the highest index down,
contract axes `qubit` and `qubit + current_num_qubits`, then decrement
`current_num_qubits`. -/
def traceLoop : List ℕ → ℕ → QTensor → Except String QTensor
  | [], _, t => .ok t
  | q :: rest, current, t =>
    match npTrace t q (q + current) with
    | .error e => .error e
    | .ok t' => traceLoop rest (current - 1) t'

/-- Model of `EntanglementMetrics.partial_trace(state_vector, keep_qubits,
total_qubits)` (`entanglement_metrics.py`, lines 21-55), line for line:
build `rho` as the outer product, list the qubits not kept, return `rho`
unchanged if that list is empty, otherwise reshape to a `2n`-axis tensor,
trace the unwanted axis pairs from the highest qubit index down, and reshape
back to a `2^len(keep) × 2^len(keep)` matrix.  A raised numpy exception is
modelled as `.error`.  Note there is no validation of `keep_qubits` or
`total_qubits` anywhere. -/
def pTrace (state : List Cq) (keep : List ℕ) (n : ℕ) :
    Except String (List (List Cq)) :=
  let rho := npOuter state
  let traceQubits := (List.range n).filter (fun i => ¬ i ∈ keep)
  if traceQubits = [] then .ok rho
  else
    match reshapeToTensor rho n with
    | .error e => .error e
    | .ok t0 =>
      match traceLoop traceQubits.reverse n t0 with
      | .error e => .error e
      | .ok tfin =>
        let keepDim := 2 ^ keep.length
        if tfin.rank = 2 * keep.length then
          .ok ((List.range keepDim).map (fun i =>
            (List.range keepDim).map (fun j =>
              tfin.data (natToBits keep.length i ++ natToBits keep.length j))))
        else .error errReshape

/-- The Bell-state amplitude `1/√2` is irrelevant to shape questions; this
concrete 2-qubit state (amplitudes 1,0,0,1 up to normalisation) is used as a
test input. -/
def bellLike : List Cq := [((1 : ℚ), (0 : ℚ)), czero, czero, ((1 : ℚ), (0 : ℚ))]

instance {ε α : Type} [DecidableEq ε] [DecidableEq α] : DecidableEq (Except ε α) := fun x y =>
  match x, y with
  | .ok a, .ok b =>
    if h : a = b then isTrue (by rw [h]) else isFalse (fun hh => h (Except.ok.inj hh))
  | .error a, .error b =>
    if h : a = b then isTrue (by rw [h]) else isFalse (fun hh => h (Except.error.inj hh))
  | .ok _, .error _ => isFalse (fun hh => Except.noConfusion hh)
  | .error _, .ok _ => isFalse (fun hh => Except.noConfusion hh)

/-- Elementwise sum of two numpy vectors. -/
def vAdd (a b : List ℚ) : List ℚ := List.zipWith (fun x y => x + y) a b

/-- Elementwise difference of two numpy vectors. -/
def vSub (a b : List ℚ) : List ℚ := List.zipWith (fun x y => x - y) a b

/-- Scalar times vector. -/
def vSmul (c : ℚ) (a : List ℚ) : List ℚ := a.map (fun x => c * x)

/-- One pass of the body of `SPSAOptimizer.optimize`'s loop
(`optimizers.py`, lines 82-112), fuelled by the number of remaining
iterations.  Arguments mirror the Python state: the iteration counter `k`,
the current `params`, `bestP`/`bestL` (the running best), and `hist`
(`self.loss_history`).  The per-iteration gain `ak` and perturbation size
`ck` are the values of the methods `step_size(k) = a/((k+1+A)**alpha)` and
`perturbation_size(k) = c/((k+1)**gamma)`; since those are float powers they
are supplied as function arguments (every claim under verification holds for
every gain schedule, and the concrete runs below use schedules reachable
from the constructor, e.g. `alpha = 0`, `gamma = 0`).  `delta k` is the
random Bernoulli ±1 perturbation vector drawn at iteration `k`
(`2 * np.random.randint(0, 2, size) - 1`), supplied as an explicit stream.
At the end of the body, the code breaks out of the loop when `k > 10` and
`|loss_history[-1] - loss_history[-10]| < tolerance`; with the history
holding `k+1` entries at that point these are the entries of iterations `k`
and `k-9`. -/
def spsaIter (loss : List ℚ → ℚ) (ak ck : ℕ → ℚ) (delta : ℕ → List ℚ) (k : ℕ)
    (params bestP : List ℚ) (bestL : ℚ) : List ℚ × List ℚ × ℚ × ℚ :=
  let ckk := ck k
  let d := delta k
  let lossPlus := loss (vAdd params (vSmul ckk d))
  let lossMinus := loss (vSub params (vSmul ckk d))
  let grad := d.map (fun di => (lossPlus - lossMinus) / (2 * ckk * di))
  let params2 := vSub params (vSmul (ak k) grad)
  let cur := loss params2
  (params2, (if cur < bestL then params2 else bestP),
    (if cur < bestL then cur else bestL), cur)

/-- The loop of `SPSAOptimizer.optimize` (`optimizers.py`, lines 82-112),
fuelled by the number of remaining iterations: run the body (`spsaIter`),
append the freshly evaluated loss to the history, and break out of the loop
when the convergence test at line 110 fires.  The returned triple is
`(best_params, best_loss, loss_history)`. -/
def spsaLoop (loss : List ℚ → ℚ) (ak ck : ℕ → ℚ) (delta : ℕ → List ℚ)
    (tol : ℚ) : ℕ → ℕ → List ℚ → List ℚ → ℚ → List ℚ → List ℚ × ℚ × List ℚ
  | 0, _, _, bestP, bestL, hist => (bestP, bestL, hist)
  | fuel + 1, k, params, bestP, bestL, hist =>
    let s := spsaIter loss ak ck delta k params bestP bestL
    let hist2 := hist ++ [s.2.2.2]
    if 10 < k ∧
        |hist2.getD (hist2.length - 1) 0 - hist2.getD (hist2.length - 10) 0| < tol then
      (s.2.1, s.2.2.1, hist2)
    else
      spsaLoop loss ak ck delta tol fuel (k + 1) s.1 s.2.1 s.2.2.1 hist2

/-- Model of `SPSAOptimizer.optimize(loss_fn, initial_params,
max_iterations, tolerance)` (`optimizers.py`, lines 56-114): initialise the
best point from the starting parameters, run up to `maxIter` loop
iterations, and return `(best_params, best_loss, loss_history)`. -/
def spsaOptimize (loss : List ℚ → ℚ) (ak ck : ℕ → ℚ) (delta : ℕ → List ℚ)
    (initialParams : List ℚ) (maxIter : ℕ) (tol : ℚ) : List ℚ × ℚ × List ℚ :=
  spsaLoop loss ak ck delta tol maxIter 0 initialParams initialParams
    (loss initialParams) []

/-- The break condition actually tested by the code at the end of iteration
`k` (`optimizers.py`, line 110), read off against the final history:
`loss_history[-1]` is entry `k` and `loss_history[-10]` is entry `k - 9`. -/
def codeStop (h : List ℚ) (tol : ℚ) (k : ℕ) : Prop :=
  10 < k ∧ |h.getD k 0 - h.getD (k - 9) 0| < tol

instance (h : List ℚ) (tol : ℚ) (k : ℕ) : Decidable (codeStop h tol k) :=
  inferInstanceAs (Decidable (_ ∧ _))

/-- The loss function of the concrete SPSA runs used below.  On a
one-dimensional parameter `[x]` it depends only on coarse features of `x`:
quarter-integers of the form `m + 1/4` map to `-1/2`, quarter-integers of
the form `m - 1/4` map to `0`, and an integer `m` maps to `0` when
`m ∈ {2, 12}` and to `m` otherwise.  With perturbation size `1/4` and step
size `1` the trajectory then walks `0, 1, 2, ...`, each perturbed
evaluation returns `-1/2`, and the recorded history at iteration `k` is the
table value at `k + 1`. -/
def lossTable (p : List ℚ) : ℚ :=
  match p with
  | [x] =>
    if x.den = 4 then (if x.num % 4 = 1 then -(1 / 2) else 0)
    else if x.den = 1 then (if x.num = 2 ∨ x.num = 12 then 0 else (x.num : ℚ))
    else 0
  | _ => 0

theorem getD_of_prefix {p h : List ℚ} (hp : p <+: h) {i : ℕ} (hi : i < p.length) :
    h.getD i 0 = p.getD i 0 := by
  obtain ⟨t, rfl⟩ := hp
  exact List.getD_append p t 0 i hi

/-- Invariant of the SPSA loop: the history only grows (by one entry per
executed iteration), the loop never runs past its fuel, the break test never
fired at any iteration that was followed by another one, and if the loop
ended with fuel left then the break test fired at the last iteration. -/
theorem spsaLoop_run_spec (loss : List ℚ → ℚ) (ak ck : ℕ → ℚ) (delta : ℕ → List ℚ)
    (tol : ℚ) :
    ∀ (fuel k : ℕ) (params bestP : List ℚ) (bestL : ℚ) (hist : List ℚ),
      hist.length = k →
      hist <+: (spsaLoop loss ak ck delta tol fuel k params bestP bestL hist).2.2 ∧
      (spsaLoop loss ak ck delta tol fuel k params bestP bestL hist).2.2.length ≤ k + fuel ∧
      (∀ j, k ≤ j →
        j + 1 < (spsaLoop loss ak ck delta tol fuel k params bestP bestL hist).2.2.length →
        ¬ codeStop (spsaLoop loss ak ck delta tol fuel k params bestP bestL hist).2.2 tol j) ∧
      ((spsaLoop loss ak ck delta tol fuel k params bestP bestL hist).2.2.length < k + fuel →
        11 < (spsaLoop loss ak ck delta tol fuel k params bestP bestL hist).2.2.length ∧
        codeStop (spsaLoop loss ak ck delta tol fuel k params bestP bestL hist).2.2 tol
          ((spsaLoop loss ak ck delta tol fuel k params bestP bestL hist).2.2.length - 1)) := by
  intro fuel
  induction fuel with
  | zero =>
    intro k params bestP bestL hist hk
    simp only [spsaLoop]
    exact ⟨List.prefix_refl _, by omega, fun j hj hj2 => by omega, by omega⟩
  | succ fuel ih =>
    intro k params bestP bestL hist hk
    simp only [spsaLoop]
    set s := spsaIter loss ak ck delta k params bestP bestL with hs
    set hist2 := hist ++ [s.2.2.2] with hh2
    have hh2len : hist2.length = k + 1 := by simp [hh2, hk]
    by_cases hstop : 10 < k ∧
        |hist2.getD (hist2.length - 1) 0 - hist2.getD (hist2.length - 10) 0| < tol
    · rw [if_pos hstop]
      simp only
      refine ⟨⟨[s.2.2.2], rfl⟩, by omega, ?_, ?_⟩
      · intro j hj hj2
        rw [hh2len] at hj2
        omega
      · intro _
        have h10 : 10 < k := hstop.1
        have e1 : hist2.length - 1 = k := by omega
        have e2 : hist2.length - 10 = k - 9 := by omega
        refine ⟨by omega, ?_⟩
        rw [hh2len]
        simp only [Nat.add_sub_cancel]
        refine ⟨h10, ?_⟩
        have := hstop.2
        rw [e1, e2] at this
        exact this
    · rw [if_neg hstop]
      obtain ⟨ihpre, ihlen, ihmid, ihstop⟩ :=
        ih (k + 1) s.1 s.2.1 s.2.2.1 hist2 hh2len
      have hpre : hist <+:
          (spsaLoop loss ak ck delta tol fuel (k + 1) s.1 s.2.1 s.2.2.1 hist2).2.2 :=
        List.IsPrefix.trans ⟨[s.2.2.2], rfl⟩ ihpre
      refine ⟨hpre, by omega, ?_, ?_⟩
      · intro j hj hj2
        rcases Nat.lt_or_ge j (k + 1) with hjk | hjk
        · have hjeq : j = k := by omega
          subst hjeq
          intro hcs
          apply hstop
          have h10 : 10 < j := hcs.1
          have e1 : hist2.length - 1 = j := by omega
          have e2 : hist2.length - 10 = j - 9 := by omega
          refine ⟨h10, ?_⟩
          rw [e1, e2]
          have g1 : (spsaLoop loss ak ck delta tol fuel (j + 1) s.1 s.2.1
              s.2.2.1 hist2).2.2.getD j 0 = hist2.getD j 0 :=
            getD_of_prefix ihpre (by omega)
          have g2 : (spsaLoop loss ak ck delta tol fuel (j + 1) s.1 s.2.1
              s.2.2.1 hist2).2.2.getD (j - 9) 0 = hist2.getD (j - 9) 0 :=
            getD_of_prefix ihpre (by omega)
          have := hcs.2
          rw [g1, g2] at this
          exact this
        · exact ihmid j hjk hj2
      · intro hlt
        have := ihstop (by omega)
        exact ⟨this.1, this.2⟩

theorem if_lt_min (a b : ℚ) : (if b < a then b else a) = min a b := by
  rcases lt_or_ge b a with h | h
  · rw [if_pos h, min_eq_right (le_of_lt h)]
  · rw [if_neg (not_lt.mpr h), min_eq_left h]

/-- One loop body keeps the running best exact: the new best loss is the
minimum of the old one and the post-update evaluation, and the best
parameters evaluate to the best loss. -/
theorem spsaIter_best (loss : List ℚ → ℚ) (ak ck : ℕ → ℚ) (delta : ℕ → List ℚ)
    (k : ℕ) (params bestP : List ℚ) (bestL : ℚ) (h : loss bestP = bestL) :
    (spsaIter loss ak ck delta k params bestP bestL).2.2.1 =
      min bestL (spsaIter loss ak ck delta k params bestP bestL).2.2.2 ∧
    loss (spsaIter loss ak ck delta k params bestP bestL).2.1 =
      (spsaIter loss ak ck delta k params bestP bestL).2.2.1 := by
  simp only [spsaIter]
  constructor
  · exact if_lt_min _ _
  · split
    · rfl
    · exact h

/-- Invariant of the SPSA loop for the best-seen values: the final best loss
is the running minimum of the incoming best loss and the appended history
entries (one per executed iteration), and the final best parameters evaluate
to the final best loss. -/
theorem spsaLoop_best_spec (loss : List ℚ → ℚ) (ak ck : ℕ → ℚ) (delta : ℕ → List ℚ)
    (tol : ℚ) :
    ∀ (fuel k : ℕ) (params bestP : List ℚ) (bestL : ℚ) (hist : List ℚ),
      loss bestP = bestL →
      ∃ tail,
        (spsaLoop loss ak ck delta tol fuel k params bestP bestL hist).2.2 =
          hist ++ tail ∧
        (spsaLoop loss ak ck delta tol fuel k params bestP bestL hist).2.1 =
          List.foldl min bestL tail ∧
        loss (spsaLoop loss ak ck delta tol fuel k params bestP bestL hist).1 =
          (spsaLoop loss ak ck delta tol fuel k params bestP bestL hist).2.1 := by
  intro fuel
  induction fuel with
  | zero =>
    intro k params bestP bestL hist h
    exact ⟨[], by simp [spsaLoop], by simp [spsaLoop], by simp [spsaLoop, h]⟩
  | succ fuel ih =>
    intro k params bestP bestL hist h
    simp only [spsaLoop]
    set s := spsaIter loss ak ck delta k params bestP bestL with hs
    obtain ⟨hmin, hbp⟩ := spsaIter_best loss ak ck delta k params bestP bestL h
    by_cases hstop : 10 < k ∧
        |(hist ++ [s.2.2.2]).getD ((hist ++ [s.2.2.2]).length - 1) 0 -
          (hist ++ [s.2.2.2]).getD ((hist ++ [s.2.2.2]).length - 10) 0| < tol
    · rw [if_pos hstop]
      refine ⟨[s.2.2.2], rfl, ?_, hbp⟩
      simp only [List.foldl_cons, List.foldl_nil]
      exact hmin
    · rw [if_neg hstop]
      obtain ⟨tail, he, hfold, hl⟩ := ih (k + 1) s.1 s.2.1 s.2.2.1 (hist ++ [s.2.2.2]) hbp
      refine ⟨s.2.2.2 :: tail, ?_, ?_, hl⟩
      · rw [he, List.append_cons, List.append_assoc]
        simp
      · rw [hfold, List.foldl_cons, hmin]

/-- C2 (amended): `SPSAOptimizer.optimize` stops early at iteration `k`
exactly when `k > 10` and `|loss_history[k] - loss_history[k - 9]| <
tolerance` — not `k - 10` as claimed: `self.loss_history[-10]` on the
`k + 1`-entry history is entry `k - 9`.  Formally: the returned history
never exceeds `max_iterations` entries, the break test never fired at an
iteration that was followed by another one, and when the history is shorter
than `max_iterations` the break test fired at its last iteration. -/
theorem spsa_optimize_stops_iff (loss : List ℚ → ℚ) (ak ck : ℕ → ℚ)
    (delta : ℕ → List ℚ) (init : List ℚ) (maxIter : ℕ) (tol : ℚ) :
    (spsaOptimize loss ak ck delta init maxIter tol).2.2.length ≤ maxIter ∧
    (∀ j, j + 1 < (spsaOptimize loss ak ck delta init maxIter tol).2.2.length →
      ¬ codeStop (spsaOptimize loss ak ck delta init maxIter tol).2.2 tol j) ∧
    ((spsaOptimize loss ak ck delta init maxIter tol).2.2.length < maxIter →
      11 < (spsaOptimize loss ak ck delta init maxIter tol).2.2.length ∧
      codeStop (spsaOptimize loss ak ck delta init maxIter tol).2.2 tol
        ((spsaOptimize loss ak ck delta init maxIter tol).2.2.length - 1)) := by
  have h := spsaLoop_run_spec loss ak ck delta tol maxIter 0 init init (loss init) [] rfl
  simp only [spsaOptimize]
  refine ⟨by simpa using h.2.1, fun j hj => h.2.2.1 j (Nat.zero_le j) hj, fun hl => ?_⟩
  exact h.2.2.2 (by simpa using hl)

/-- Witness for C2 (amended): on the constant-zero loss with 15 iterations
allowed, the run stops early with exactly 12 history entries, and the
theorem's early-stop implication yields the fired break condition at the
last iteration `k = 11` (comparing entries 11 and 2). -/
theorem spsa_optimize_stops_iff_witness :
    (spsaOptimize (fun _ => 0) (fun _ => 1) (fun _ => 1) (fun _ => [1]) [0] 15
        1).2.2.length = 12 ∧
    codeStop (spsaOptimize (fun _ => 0) (fun _ => 1) (fun _ => 1) (fun _ => [1])
        [0] 15 1).2.2 1 11 := by
  have e : spsaOptimize (fun _ => 0) (fun _ => 1) (fun _ => 1) (fun _ => [1]) [0] 15 1 =
      ([0], 0, [0, 0, 0, 0, 0, 0, 0, 0, 0, 0, 0, 0]) := by
    norm_num [spsaOptimize, spsaLoop, spsaIter, vAdd, vSub, vSmul]
  have h := (spsa_optimize_stops_iff (fun _ => 0) (fun _ => 1) (fun _ => 1)
      (fun _ => [1]) [0] 15 1).2.2 (by rw [e]; norm_num)
  rw [e] at h ⊢
  exact ⟨by norm_num, by simpa using h.2⟩

/-- C2 counterexample to the claim as stated: a concrete run (step size 1,
perturbation size 1/4, perturbation direction always `[1]`, tolerance 1/100,
13 iterations allowed) in which, at iteration `k = 11`, `k > 10` holds and
the history entries of iterations `k` and `k - 10` differ by less than the
tolerance — so the claim says the run stops at iteration 11 with 12 history
entries — yet the run does not stop and returns all 13 entries (the code
compares entry `k` with entry `k - 9`, which differ by 3 here). -/
theorem spsa_early_stop_claim_cex :
    (spsaOptimize lossTable (fun _ => 1) (fun _ => 1 / 4) (fun _ => [1]) [0] 13
        (1 / 100)).2.2.length = 13 ∧
    10 < 11 ∧
    |(spsaOptimize lossTable (fun _ => 1) (fun _ => 1 / 4) (fun _ => [1]) [0] 13
        (1 / 100)).2.2.getD 11 0 -
      (spsaOptimize lossTable (fun _ => 1) (fun _ => 1 / 4) (fun _ => [1]) [0] 13
        (1 / 100)).2.2.getD (11 - 10) 0| < 1 / 100 := by
  have e : spsaOptimize lossTable (fun _ => 1) (fun _ => 1 / 4) (fun _ => [1]) [0] 13
      (1 / 100) = ([0], 0, [1, 0, 3, 4, 5, 6, 7, 8, 9, 10, 11, 0, 13]) := by
    norm_num [spsaOptimize, spsaLoop, spsaIter, lossTable, vAdd, vSub, vSmul]
  rw [e]
  norm_num

/-- C3 (amended): `SPSAOptimizer.optimize` returns `(best_params, best_loss,
history)` with `history` finite and ordered of length at most
`max_iterations`, `best_loss` the minimum over the initial-point evaluation
and every post-update evaluation (the history entries) — the two
perturbed-point evaluations of each iteration are not consulted — and
`best_params` a point achieving `best_loss`. -/
theorem spsa_optimize_best (loss : List ℚ → ℚ) (ak ck : ℕ → ℚ)
    (delta : ℕ → List ℚ) (init : List ℚ) (maxIter : ℕ) (tol : ℚ) :
    (spsaOptimize loss ak ck delta init maxIter tol).2.2.length ≤ maxIter ∧
    (spsaOptimize loss ak ck delta init maxIter tol).2.1 =
      List.foldl min (loss init) (spsaOptimize loss ak ck delta init maxIter tol).2.2 ∧
    loss (spsaOptimize loss ak ck delta init maxIter tol).1 =
      (spsaOptimize loss ak ck delta init maxIter tol).2.1 := by
  have h1 := spsaLoop_run_spec loss ak ck delta tol maxIter 0 init init (loss init) [] rfl
  obtain ⟨tail, he, hfold, hl⟩ :=
    spsaLoop_best_spec loss ak ck delta tol maxIter 0 init init (loss init) [] rfl
  refine ⟨by simpa [spsaOptimize] using h1.2.1, ?_, by simpa [spsaOptimize] using hl⟩
  simp only [spsaOptimize] at he hfold ⊢
  rw [he]
  simpa using hfold

/-- C3 counterexample to the claim as stated: in a one-iteration run with
perturbation size 1/4 and direction `[1]` from the origin, the perturbed
point of iteration 0 is `params + c0·delta0 = [1/4]`, where the loss
evaluates to `-1/2`; yet the returned `best_loss` is `0`, which is not `≤
-1/2` — so `best_loss` is not the minimum over all observed evaluations
(the perturbed-point evaluations are never consulted). -/
theorem spsa_best_loss_claim_cex :
    vAdd [0] (vSmul (1 / 4) [1]) = [1 / 4] ∧
    lossTable [1 / 4] = -(1 / 2) ∧
    (spsaOptimize lossTable (fun _ => 1) (fun _ => 1 / 4) (fun _ => [1]) [0] 1
        (1 / 100)).2.1 = 0 ∧
    ¬ ((0 : ℚ) ≤ -(1 / 2)) := by
  have e : spsaOptimize lossTable (fun _ => 1) (fun _ => 1 / 4) (fun _ => [1]) [0] 1
      (1 / 100) = ([0], 0, [1]) := by
    norm_num [spsaOptimize, spsaLoop, spsaIter, lossTable, vAdd, vSub, vSmul]
  refine ⟨by norm_num [vAdd, vSmul], by norm_num [lossTable], by rw [e], by norm_num⟩

/-- C4 counterexample: `partial_trace` called with `total_qubits = 0`
(violating the precondition `n ≥ 1`) does not signal any contract
violation: it silently returns the full (here 1×1) density matrix, because
the list of qubits to trace out is empty and the function returns `rho`
unchanged before any shape is checked. -/
theorem ptrace_no_validation_cex :
    pTrace [((1 : ℚ), (0 : ℚ))] [0] 0 = Except.ok [[((1 : ℚ), (0 : ℚ))]] := by
  norm_num [pTrace, npOuter, cmul, cconj]

/-- C4 (amended): no metric entry point validates its arguments at the call
boundary.  With `n = 0` (violating `n ≥ 1`), `partial_trace` silently
returns the full density matrix — whose shape is the state's length, not
the documented `2^len(keep)` — for every state and keep list; and an
out-of-range subsystem index (`keep = [2]` with `n = 2`) surfaces only as
an error raised from inside the array reshape machinery after all
contractions, not as an explicit contract violation at the boundary. -/
theorem ptrace_no_validation :
    (∀ (state : List Cq) (keep : List ℕ),
      pTrace state keep 0 = Except.ok (npOuter state)) ∧
    pTrace bellLike [2] 2 = Except.error errReshape :=
  ⟨fun _ _ => rfl, by decide⟩

/-- The list of unordered subsystem pairs visited by the nested loops
`for i in range(n): for j in range(i + 1, n)` of `compute_all_metrics`
(`entanglement_metrics.py`, lines 289-290), in loop order.
`range(i + 1, n)` is written as the ascending `range(n)` filtered to
`j > i`, which is the same list. -/
def pairsList (n : ℕ) : List (ℕ × ℕ) :=
  (List.range n).flatMap (fun i =>
    ((List.range n).filter (fun j => i < j)).map (fun j => (i, j)))

theorem filter_lt_range_length (n i : ℕ) :
    ((List.range n).filter (fun j => i < j)).length = n - (i + 1) := by
  induction n with
  | zero => simp
  | succ n ih =>
    rw [List.range_succ, List.filter_append, List.length_append, ih]
    by_cases h : i < n
    · simp [h]
      omega
    · simp [h]
      omega

theorem list_sum_range_map (f : ℕ → ℕ) (n : ℕ) :
    ((List.range n).map f).sum = ∑ i ∈ Finset.range n, f i := by
  induction n with
  | zero => simp
  | succ n ih =>
    rw [List.range_succ, List.map_append, List.sum_append, Finset.sum_range_succ, ih]
    simp

/-- There are exactly `n·(n-1)/2` unordered pairs. -/
theorem pairsList_length (n : ℕ) : (pairsList n).length = n * (n - 1) / 2 := by
  rw [pairsList, List.length_flatMap, Function.comp_def]
  have h1 : ∀ i ∈ List.range n,
      (((List.range n).filter (fun j => i < j)).map (fun j => (i, j))).length =
        n - 1 - i := by
    intro i _
    rw [List.length_map, filter_lt_range_length]
    omega
  rw [List.map_congr_left h1, list_sum_range_map,
    Finset.sum_range_reflect (fun i => i) n, Finset.sum_range_id]

/-- The visited pairs are pairwise distinct (so the four Python dicts hold
one entry per pair). -/
theorem pairsList_nodup (n : ℕ) : (pairsList n).Nodup := by
  rw [pairsList, List.nodup_flatMap]
  constructor
  · intro i _
    exact List.Nodup.map (fun a b h => (Prod.mk.injEq _ _ _ _ ▸ h).2)
      (List.Nodup.filter _ (List.nodup_range n))
  · refine (List.pairwise_lt_range n).imp ?_
    intro a b hab
    intro x hxa hxb
    simp only [Function.comp, List.mem_map, List.mem_filter] at hxa hxb
    obtain ⟨j1, _, e1⟩ := hxa
    obtain ⟨j2, _, e2⟩ := hxb
    rw [← e1] at e2
    have : a = b := (Prod.mk.injEq _ _ _ _ ▸ e2.symm).1
    omega

/-- The type of one pairwise metric routine (`mutual_information`,
`concurrence`, `tangle`, `negativity`): it receives the state vector, the
two subsystem indices and the total subsystem count, and either returns a
float or raises (`.error`).  The scipy-backed numerics inside each routine
are not re-implemented; claim C1 is proved for every possible behaviour of
these four routines. -/
def MetricFn : Type := List Cq → ℕ → ℕ → ℕ → Except String ℚ

/-- The net effect of the `try`/`except` block of `compute_all_metrics`
(`entanglement_metrics.py`, lines 293-311) on one pair: the four metrics
are computed in order (mutual information, concurrence, tangle,
negativity); if any of them raises, the handler overwrites all four of the
pair's entries with `0.0` (entries already assigned inside the `try` are
overwritten too); otherwise the four computed values are stored. -/
def pairMetrics (mi conc tang neg : Except String ℚ) : ℚ × ℚ × ℚ × ℚ :=
  match mi with
  | .error _ => (0, 0, 0, 0)
  | .ok v1 =>
    match conc with
    | .error _ => (0, 0, 0, 0)
    | .ok v2 =>
      match tang with
      | .error _ => (0, 0, 0, 0)
      | .ok v3 =>
        match neg with
        | .error _ => (0, 0, 0, 0)
        | .ok v4 => (v1, v2, v3, v4)

/-- The dictionary returned by `compute_all_metrics`
(`entanglement_metrics.py`, lines 279-286).  Each per-pair dict is an
ordered association list keyed by the pair (the source keys the string
`f"{i}-{j}"`, an equivalent encoding of the pair). -/
structure AllMetrics where
  mutual_information : List ((ℕ × ℕ) × ℚ)
  concurrence : List ((ℕ × ℕ) × ℚ)
  tangle : List ((ℕ × ℕ) × ℚ)
  negativity : List ((ℕ × ℕ) × ℚ)
  three_tangle : ℚ
  spectrum : List (List ℚ)

/-- Model of `EntanglementMetrics.compute_all_metrics(state_vector,
total_qubits)` (`entanglement_metrics.py`, lines 267-328): for every
unordered pair, in loop order, store the four pairwise metrics (all four
zeroed if any of the four raises); then the three-tangle if `n ≥ 3`
(zeroed if it raises), and the spectrum (emptied if it raises).  The four
metric routines, the three-tangle and the spectrum are supplied as
arbitrary fallible functions (see `MetricFn`). -/
def computeAllMetrics (mi conc tang neg : MetricFn)
    (threeT : List Cq → ℕ → Except String ℚ)
    (spect : List Cq → ℕ → Except String (List (List ℚ)))
    (state : List Cq) (n : ℕ) : AllMetrics :=
  let pairVals := (pairsList n).map (fun p =>
    (p, pairMetrics (mi state p.1 p.2 n) (conc state p.1 p.2 n)
      (tang state p.1 p.2 n) (neg state p.1 p.2 n)))
  ⟨pairVals.map (fun pv => (pv.1, pv.2.1)),
   pairVals.map (fun pv => (pv.1, pv.2.2.1)),
   pairVals.map (fun pv => (pv.1, pv.2.2.2.1)),
   pairVals.map (fun pv => (pv.1, pv.2.2.2.2)),
   (if 3 ≤ n then (match threeT state n with | .ok v => v | .error _ => 0) else 0),
   (match spect state n with | .ok s => s | .error _ => [])⟩

/-- Looking a key up in an association list built by tabulating a function
over a key list returns the tabulated value at any listed key. -/
theorem lookup_tabulate {α β : Type} [BEq α] [LawfulBEq α] (f : α → β) (a : α) :
    ∀ (l : List α), a ∈ l → (l.map (fun x => (x, f x))).lookup a = some (f a) := by
  intro l
  induction l with
  | nil => intro h; cases h
  | cons x xs ih =>
    intro hmem
    by_cases hx : a = x
    · subst hx
      simp [List.lookup]
    · have : a ∈ xs := by
        rcases hmem with _ | h
        · exact absurd rfl hx
        · assumption
      simp only [List.map_cons, List.lookup]
      rw [beq_false_of_ne hx]
      exact ih this

/-- If any of the four metric computations for a pair raises, the stored
quadruple is all zeros. -/
theorem pairMetrics_fail (mi conc tang neg : Except String ℚ)
    (h : (∃ e, mi = .error e) ∨ (∃ e, conc = .error e) ∨
         (∃ e, tang = .error e) ∨ (∃ e, neg = .error e)) :
    pairMetrics mi conc tang neg = (0, 0, 0, 0) := by
  rcases h with ⟨e, he⟩ | ⟨e, he⟩ | ⟨e, he⟩ | ⟨e, he⟩
  · rw [he]
    rfl
  · rw [he]
    cases mi <;> rfl
  · rw [he]
    cases mi <;> cases conc <;> rfl
  · rw [he]
    cases mi <;> cases conc <;> cases tang <;> rfl

/-- Error text standing for a scipy numerical failure (non-convergent
square root, singular matrix, ...). -/
def errNum : String := "numerical failure"

/-- C1: for every behaviour of the four pairwise metric routines and every
state, `compute_all_metrics` never aborts (it is a total function): each of
the four pairwise mappings lists exactly the `n·(n-1)/2` distinct unordered
pairs, in loop order, and for any pair on which any of the four routines
raises, all four of that pair's entries are `0.0`. -/
theorem compute_all_metrics_failsoft (mi conc tang neg : MetricFn)
    (threeT : List Cq → ℕ → Except String ℚ)
    (spect : List Cq → ℕ → Except String (List (List ℚ)))
    (state : List Cq) (n : ℕ) (hn : 2 ≤ n) :
    ((computeAllMetrics mi conc tang neg threeT spect state n).mutual_information.map
        Prod.fst = pairsList n ∧
      (computeAllMetrics mi conc tang neg threeT spect state n).concurrence.map
        Prod.fst = pairsList n ∧
      (computeAllMetrics mi conc tang neg threeT spect state n).tangle.map
        Prod.fst = pairsList n ∧
      (computeAllMetrics mi conc tang neg threeT spect state n).negativity.map
        Prod.fst = pairsList n) ∧
    (pairsList n).length = n * (n - 1) / 2 ∧
    (pairsList n).Nodup ∧
    (∀ i j, (i, j) ∈ pairsList n →
      ((∃ e, mi state i j n = .error e) ∨ (∃ e, conc state i j n = .error e) ∨
        (∃ e, tang state i j n = .error e) ∨ (∃ e, neg state i j n = .error e)) →
      (computeAllMetrics mi conc tang neg threeT spect state n).mutual_information.lookup
          (i, j) = some 0 ∧
      (computeAllMetrics mi conc tang neg threeT spect state n).concurrence.lookup
          (i, j) = some 0 ∧
      (computeAllMetrics mi conc tang neg threeT spect state n).tangle.lookup
          (i, j) = some 0 ∧
      (computeAllMetrics mi conc tang neg threeT spect state n).negativity.lookup
          (i, j) = some 0) := by
  refine ⟨⟨?_, ?_, ?_, ?_⟩, pairsList_length n, pairsList_nodup n, ?_⟩
  · simp [computeAllMetrics, List.map_map, Function.comp_def]
  · simp [computeAllMetrics, List.map_map, Function.comp_def]
  · simp [computeAllMetrics, List.map_map, Function.comp_def]
  · simp [computeAllMetrics, List.map_map, Function.comp_def]
  · intro i j hij hfail
    have hz : pairMetrics (mi state i j n) (conc state i j n) (tang state i j n)
        (neg state i j n) = (0, 0, 0, 0) := pairMetrics_fail _ _ _ _ hfail
    simp only [computeAllMetrics, List.map_map]
    refine ⟨?_, ?_, ?_, ?_⟩
    · have h := lookup_tabulate (fun p : ℕ × ℕ =>
        (pairMetrics (mi state p.1 p.2 n) (conc state p.1 p.2 n)
          (tang state p.1 p.2 n) (neg state p.1 p.2 n)).1) (i, j) (pairsList n) hij
      simpa [Function.comp_def, hz] using h
    · have h := lookup_tabulate (fun p : ℕ × ℕ =>
        (pairMetrics (mi state p.1 p.2 n) (conc state p.1 p.2 n)
          (tang state p.1 p.2 n) (neg state p.1 p.2 n)).2.1) (i, j) (pairsList n) hij
      simpa [Function.comp_def, hz] using h
    · have h := lookup_tabulate (fun p : ℕ × ℕ =>
        (pairMetrics (mi state p.1 p.2 n) (conc state p.1 p.2 n)
          (tang state p.1 p.2 n) (neg state p.1 p.2 n)).2.2.1) (i, j) (pairsList n) hij
      simpa [Function.comp_def, hz] using h
    · have h := lookup_tabulate (fun p : ℕ × ℕ =>
        (pairMetrics (mi state p.1 p.2 n) (conc state p.1 p.2 n)
          (tang state p.1 p.2 n) (neg state p.1 p.2 n)).2.2.2) (i, j) (pairsList n) hij
      simpa [Function.comp_def, hz] using h

/-- Witness for C1: a 2-subsystem instance in which the concurrence routine
raises on the single pair (0,1); the mapping keys are exactly that single
pair (`2·1/2 = 1` entry) and the pair's tangle entry is zeroed. -/
theorem compute_all_metrics_failsoft_witness :
    2 ≤ 2 ∧
    (computeAllMetrics (fun _ _ _ _ => .ok 5) (fun _ _ _ _ => .error errNum)
      (fun _ _ _ _ => .ok 7) (fun _ _ _ _ => .ok 9) (fun _ _ => .ok 1)
      (fun _ _ => .ok []) [] 2).mutual_information.map Prod.fst = pairsList 2 ∧
    (pairsList 2).length = 2 * (2 - 1) / 2 ∧
    (computeAllMetrics (fun _ _ _ _ => .ok 5) (fun _ _ _ _ => .error errNum)
      (fun _ _ _ _ => .ok 7) (fun _ _ _ _ => .ok 9) (fun _ _ => .ok 1)
      (fun _ _ => .ok []) [] 2).tangle.lookup (0, 1) = some 0 := by
  have h := compute_all_metrics_failsoft (fun _ _ _ _ => .ok 5)
    (fun _ _ _ _ => .error errNum) (fun _ _ _ _ => .ok 7) (fun _ _ _ _ => .ok 9)
    (fun _ _ => .ok 1) (fun _ _ => .ok []) [] 2 (by norm_num)
  refine ⟨by norm_num, h.1.1, h.2.1, ?_⟩
  exact (h.2.2.2 0 1 (by decide) (Or.inr (Or.inl ⟨errNum, rfl⟩))).2.2.1

/-- Model of `EntanglementMetrics.tangle(state, a, b, n)`
(`entanglement_metrics.py`, lines 158-176): the squared concurrence.  The
concurrence routine (scipy `sqrtm`-based Wootters measure, lines 116-156)
is supplied as an arbitrary function; claim C5 holds for every behaviour of
it. -/
def tangle (concFn : List Cq → ℕ → ℕ → ℕ → ℚ) (state : List Cq)
    (qa qb n : ℕ) : ℚ :=
  (concFn state qa qb n) ^ 2

/-- Model of `EntanglementMetrics.three_tangle(state, total_qubits)`
(`entanglement_metrics.py`, lines 178-206): returns `0.0` for fewer than 3
subsystems; otherwise computes the pairwise tangles of pairs (0,1), (0,2)
and (1,2) of the first three subsystems — the (1,2) value is computed but
never used, exactly as in the source — and returns
`max(0, 1 - tangle01 - tangle02)`. -/
def three_tangle (concFn : List Cq → ℕ → ℕ → ℕ → ℚ) (state : List Cq)
    (n : ℕ) : ℚ :=
  if n < 3 then 0
  else
    let tau01 := tangle concFn state 0 1 n
    let tau02 := tangle concFn state 0 2 n
    let _tau12 := tangle concFn state 1 2 n
    max 0 (1 - tau01 - tau02)

/-- C5: for every concurrence behaviour, every state and every `n ≥ 3`,
`three_tangle` equals `max(0, 1 - tangle(0,1) - tangle(0,2))`: only the
pairs (0,1) and (0,2) enter the result; neither the (1,2) pairwise tangle
nor any one-vs-rest term is subtracted. -/
theorem three_tangle_formula (concFn : List Cq → ℕ → ℕ → ℕ → ℚ)
    (state : List Cq) (n : ℕ) (hn : 3 ≤ n) :
    three_tangle concFn state n =
      max 0 (1 - tangle concFn state 0 1 n - tangle concFn state 0 2 n) := by
  rw [three_tangle, if_neg (by omega)]

/-- Witness for C5: with a concurrence that is identically zero on a
3-subsystem state the three-tangle evaluates to `max(0, 1 - 0 - 0) = 1`. -/
theorem three_tangle_formula_witness :
    3 ≤ 3 ∧ three_tangle (fun _ _ _ _ => 0) [] 3 = 1 := by
  have h := three_tangle_formula (fun _ _ _ _ => 0) [] 3 (by norm_num)
  refine ⟨by norm_num, ?_⟩
  rw [h]
  norm_num [tangle]

/-- The mutable per-instance fields of a `QuantumNaturalGradient` optimizer
(`optimizers.py`, lines 125-135). -/
structure QNGState where
  learning_rate : ℚ
  epsilon : ℚ
  iteration : ℕ

/-- The default finite-difference step `delta = 1e-4` of
`compute_fisher_information`, used by `optimize_step`. -/
def fisherDelta : ℚ := 1 / 10000

/-- Model of `params.copy(); params_plus[i] += delta`: a fresh vector with
entry `i` shifted (the caller's vector is untouched — the source mutates
only the copy). -/
def perturbIdx (params : List ℚ) (i : ℕ) (delta : ℚ) : List ℚ :=
  params.set i (params.getD i 0 + delta)

/-- Forward-difference derivative `(psi_plus - psi) / delta`, elementwise on
complex amplitudes. -/
def dpsiOf (psiPlus psi : List Cq) (delta : ℚ) : List Cq :=
  List.zipWith (fun a b => ((a.1 - b.1) / delta, (a.2 - b.2) / delta)) psiPlus psi

/-- Model of `np.vdot(a, b)`: the sum of `conj(a_i) * b_i`. -/
def vdot (a b : List Cq) : Cq :=
  (List.zipWith (fun x y => cmul (cconj x) y) a b).foldl cadd czero

/-- One Fisher-information entry for `i ≤ j` (`optimizers.py`, line 179):
`4 * Re(<dpsi_i|dpsi_j> - <dpsi_i|psi><psi|dpsi_j>)`. -/
def fisherEntry (stateFn : List ℚ → List Cq) (params : List ℚ) (delta : ℚ)
    (psi : List Cq) (i j : ℕ) : ℚ :=
  let dpsi_i := dpsiOf (stateFn (perturbIdx params i delta)) psi delta
  let dpsi_j := dpsiOf (stateFn (perturbIdx params j delta)) psi delta
  4 * cre (csub (vdot dpsi_i dpsi_j) (cmul (vdot dpsi_i psi) (vdot psi dpsi_j)))

/-- Model of `QuantumNaturalGradient.compute_fisher_information(params,
state_fn, delta)` (`optimizers.py`, lines 137-182): the entry at `(i, j)`
is computed for `i ≤ j` and mirrored onto `(j, i)` (`F[j, i] = F[i, j]`). -/
def compute_fisher_information (params : List ℚ) (stateFn : List ℚ → List Cq)
    (delta : ℚ) : List (List ℚ) :=
  let n := params.length
  let psi := stateFn params
  (List.range n).map (fun i => (List.range n).map (fun j =>
    if i ≤ j then fisherEntry stateFn params delta psi i j
    else fisherEntry stateFn params delta psi j i))

/-- Elementwise matrix sum. -/
def matAdd (a b : List (List ℚ)) : List (List ℚ) := List.zipWith vAdd a b

/-- `eps * np.eye(n)`. -/
def scaledEye (eps : ℚ) (n : ℕ) : List (List ℚ) :=
  (List.range n).map (fun i => (List.range n).map (fun j =>
    if i = j then eps else 0))

/-- Matrix–vector product `A @ v`. -/
def matVecMul (a : List (List ℚ)) (v : List ℚ) : List ℚ :=
  a.map (fun row => (List.zipWith (fun x y => x * y) row v).sum)

/-- Swap two rows of a matrix (partial pivoting). -/
def swapRows (m : List (List ℚ)) (r1 r2 : ℕ) : List (List ℚ) :=
  m.mapIdx (fun i row =>
    if i = r1 then m.getD r2 [] else if i = r2 then m.getD r1 [] else row)

/-- One column of Gauss–Jordan elimination on the augmented matrix: find a
pivot row at or below `col` with a nonzero entry in column `col` (if none
exists the matrix is singular), swap it up, scale it to a unit pivot and
clear the column from every other row. -/
def elimCol (aug : List (List ℚ)) (col : ℕ) : Option (List (List ℚ)) :=
  match (aug.drop col).findIdx? (fun row => row.getD col 0 ≠ 0) with
  | none => none
  | some idx =>
    let r := col + idx
    let aug2 := swapRows aug col r
    let pivotRow := aug2.getD col []
    let pivotVal := pivotRow.getD col 0
    let scaled := pivotRow.map (fun x => x / pivotVal)
    some (aug2.mapIdx (fun i row =>
      if i = col then scaled
      else vSub row (vSmul (row.getD col 0) scaled)))

/-- Gauss–Jordan elimination over the columns, fuelled by the dimension. -/
def gaussGo : ℕ → ℕ → List (List ℚ) → Option (List (List ℚ))
  | 0, _, aug => some aug
  | fuel + 1, col, aug =>
    match elimCol aug col with
    | none => none
    | some aug2 => gaussGo fuel (col + 1) aug2

/-- Model of `np.linalg.inv`, which raises `LinAlgError` exactly when the
LU factorisation meets a singular matrix: Gauss–Jordan elimination of the
matrix augmented with the identity; `none` stands for the raised
`LinAlgError`. -/
def matInv (m : List (List ℚ)) : Option (List (List ℚ)) :=
  let n := m.length
  let aug := (List.range n).map (fun i =>
    (m.getD i []) ++ (List.range n).map (fun j => if i = j then (1 : ℚ) else 0))
  match gaussGo n 0 aug with
  | none => none
  | some res => some (res.map (fun row => row.drop n))

/-- Model of `QuantumNaturalGradient.optimize_step(params, gradient,
state_fn)` (`optimizers.py`, lines 184-219): compute the Fisher matrix,
regularize it as `F + epsilon * I`, invert; on inversion failure fall back
to the plain gradient; return `params - learning_rate * natural_gradient`
together with the instance state whose iteration counter is incremented. -/
def optimize_step (st : QNGState) (params gradient : List ℚ)
    (stateFn : List ℚ → List Cq) : List ℚ × QNGState :=
  let f := compute_fisher_information params stateFn fisherDelta
  let fReg := matAdd f (scaledEye st.epsilon params.length)
  let naturalGradient :=
    match matInv fReg with
    | some fInv => matVecMul fInv gradient
    | none => gradient
  (vSub params (vSmul st.learning_rate naturalGradient),
   ⟨st.learning_rate, st.epsilon, st.iteration + 1⟩)

/-- C6: `optimize_step` never raises (it is a total function); when
inversion of the regularized Fisher matrix fails it returns
`params - learning_rate * gradient`, and when inversion succeeds it returns
`params - learning_rate * (F + epsilon*I)^(-1) @ gradient`. -/
theorem qng_optimize_step_spec (st : QNGState) (params gradient : List ℚ)
    (stateFn : List ℚ → List Cq) :
    (matInv (matAdd (compute_fisher_information params stateFn fisherDelta)
        (scaledEye st.epsilon params.length)) = none →
      (optimize_step st params gradient stateFn).1 =
        vSub params (vSmul st.learning_rate gradient)) ∧
    (∀ fInv, matInv (matAdd (compute_fisher_information params stateFn fisherDelta)
        (scaledEye st.epsilon params.length)) = some fInv →
      (optimize_step st params gradient stateFn).1 =
        vSub params (vSmul st.learning_rate (matVecMul fInv gradient))) := by
  constructor
  · intro h
    simp only [optimize_step, h]
  · intro fInv h
    simp only [optimize_step, h]

/-- C10: `optimize_step` changes no instance field except the iteration
counter, which it increments by exactly 1; the inputs are consumed purely
(the source mutates only fresh copies: `params.copy()` inside the Fisher
computation, and the returned `params - learning_rate * natural_gradient`
is a fresh array). -/
theorem qng_optimize_step_frame (st : QNGState) (params gradient : List ℚ)
    (stateFn : List ℚ → List Cq) :
    (optimize_step st params gradient stateFn).2.learning_rate = st.learning_rate ∧
    (optimize_step st params gradient stateFn).2.epsilon = st.epsilon ∧
    (optimize_step st params gradient stateFn).2.iteration = st.iteration + 1 :=
  ⟨rfl, rfl, rfl⟩

/-- Witness for C6: with the constant empty state function on a
1-dimensional parameter and `epsilon = 0`, the regularized Fisher matrix is
the singular `[[0]]`, inversion fails, and the step returns the plain
gradient step `params - learning_rate * gradient`. -/
theorem qng_optimize_step_spec_witness :
    matInv (matAdd (compute_fisher_information [0] (fun _ => []) fisherDelta)
      (scaledEye 0 1)) = none ∧
    (optimize_step ⟨1, 0, 5⟩ [0] [3] (fun _ => [])).1 = vSub [0] (vSmul 1 [3]) := by
  have e : matInv (matAdd (compute_fisher_information [0] (fun _ => []) fisherDelta)
      (scaledEye 0 1)) = none := by
    norm_num [matInv, gaussGo, elimCol, compute_fisher_information, fisherEntry, matAdd,
      scaledEye, vAdd, vSub, vSmul, dpsiOf, vdot, cre, csub, cmul, cconj, czero, cadd,
      perturbIdx, swapRows, List.findIdx?]
  exact ⟨e, (qng_optimize_step_spec ⟨1, 0, 5⟩ [0] [3] (fun _ => [])).1 e⟩

/-- Model of `PDEHamiltonian.heat_diffusion_hamiltonian(t, diffusion_rate,
emotional_gradient)` (`pde_hamiltonians.py`, lines 33-64). -/
noncomputable def heat_diffusion_hamiltonian (t diffusionRate emotionalGradient : ℝ) :
    ℝ × ℝ × ℝ :=
  (1.0 * Real.exp (-diffusionRate * t),
   diffusionRate * emotionalGradient,
   0.5 * Real.exp (-0.5 * diffusionRate * t))

/-- Model of `PDEHamiltonian.wave_oscillation_hamiltonian(t, frequency,
amplitude, phase)` (`pde_hamiltonians.py`, lines 66-98). -/
noncomputable def wave_oscillation_hamiltonian (t frequency amplitude phase : ℝ) :
    ℝ × ℝ × ℝ :=
  let omega := 2 * Real.pi * frequency
  (amplitude * Real.cos (omega * t + phase),
   amplitude * Real.sin (omega * t + phase),
   0.5 * amplitude * Real.cos (2 * omega * t))

/-- Model of `PDEHamiltonian.schrodinger_coherent_hamiltonian(t,
energy_level, coherence_time)` (`pde_hamiltonians.py`, lines 100-128). -/
noncomputable def schrodinger_coherent_hamiltonian (t energyLevel coherenceTime : ℝ) :
    ℝ × ℝ × ℝ :=
  let decoherenceFactor := Real.exp (-t / coherenceTime)
  (energyLevel * decoherenceFactor,
   energyLevel * 0.5 * decoherenceFactor,
   1.0 * decoherenceFactor)

/-- Model of `PDEHamiltonian.reaction_diffusion_hamiltonian(t,
reaction_rate, diffusion_rate, stimulus)` (`pde_hamiltonians.py`,
lines 130-164). -/
noncomputable def reaction_diffusion_hamiltonian
    (t reactionRate diffusionRate stimulus : ℝ) : ℝ × ℝ × ℝ :=
  let reaction := reactionRate * stimulus * (1 - Real.tanh t)
  let diffusion := diffusionRate * Real.exp (-0.1 * t)
  (1.0 + reaction, diffusion, diffusion * 2.0)

/-- The needs mapping consumed by the adaptive model (the three keys it
reads). -/
structure Needs where
  comfort : ℝ
  stimulation : ℝ
  connection : ℝ

/-- Model of `PDEHamiltonian.adaptive_hamiltonian(t, emotional_state,
needs)` (`pde_hamiltonians.py`, lines 166-205): `needs = needs or
{"comfort": 50, "stimulation": 50, "connection": 50}`, then string-keyed
dispatch over the emotional-state label, falling back to the coherent
Schrodinger model for any other label. -/
noncomputable def adaptive_hamiltonian (t : ℝ) (emotionalState : String)
    (needs0 : Option Needs) : ℝ × ℝ × ℝ :=
  let needs := needs0.getD ⟨50, 50, 50⟩
  if emotionalState ∈ ["anxious", "stressed", "overwhelmed"] then
    heat_diffusion_hamiltonian t (1.0 + (100 - needs.comfort) / 100) 0.5
  else if emotionalState ∈ ["excited", "joyful", "energetic"] then
    wave_oscillation_hamiltonian t (0.5 + needs.stimulation / 200)
      (1.0 + needs.stimulation / 100) 0
  else if emotionalState ∈ ["lonely", "disconnected"] then
    reaction_diffusion_hamiltonian t 1.0 0.5 ((100 - needs.connection) / 100)
  else
    schrodinger_coherent_hamiltonian t 1.0 (10.0 + needs.comfort / 10)

/-- The keyword arguments forwarded by `time_dependent_evolution` to the
selected model (`**kwargs`).  All model parameters are carried explicitly;
the model assumes the caller supplies exactly the arguments the selected
model accepts (a mismatched key would be a Python `TypeError`, outside the
claims under verification).  `diffusion_rate` is shared between the heat
and reaction-diffusion models, as the single kwargs key is in the source. -/
structure HKwargs where
  diffusion_rate : ℝ
  emotional_gradient : ℝ
  frequency : ℝ
  amplitude : ℝ
  phase : ℝ
  energy_level : ℝ
  coherence_time : ℝ
  reaction_rate : ℝ
  stimulus : ℝ
  emotional_state : String
  needs : Option Needs

/-- The dispatch on `hamiltonian_type` inside the loop of
`time_dependent_evolution` (`pde_hamiltonians.py`, lines 235-244): four
string comparisons, with everything else — the literal `"adaptive"`,
misspellings, other capitalisations — falling into the `else` branch that
calls the adaptive model. -/
noncomputable def hamiltonianFor (htype : String) (kw : HKwargs) (t : ℝ) :
    ℝ × ℝ × ℝ :=
  if htype = "heat" then
    heat_diffusion_hamiltonian t kw.diffusion_rate kw.emotional_gradient
  else if htype = "wave" then
    wave_oscillation_hamiltonian t kw.frequency kw.amplitude kw.phase
  else if htype = "schrodinger" then
    schrodinger_coherent_hamiltonian t kw.energy_level kw.coherence_time
  else if htype = "reaction_diffusion" then
    reaction_diffusion_hamiltonian t kw.reaction_rate kw.diffusion_rate kw.stimulus
  else
    adaptive_hamiltonian t kw.emotional_state kw.needs

/-- The gate applications issued for one time step (`pde_hamiltonians.py`,
lines 247-253): for every qubit an RZ and an RX rotation, plus an RY
rotation when the coupling exceeds 0.1 and the qubit is not the last. -/
noncomputable def gateCallsFor (nQubits : ℕ) (dt : ℝ) (trip : ℝ × ℝ × ℝ) :
    List (String × ℕ × ℝ) :=
  (List.range nQubits).flatMap (fun q =>
    [("RZ", q, trip.1 * dt), ("RX", q, trip.2.1 * dt)] ++
    (if 0.1 < trip.2.2 ∧ q < nQubits - 1 then [("RY", q, trip.2.2 * dt * 0.1)]
     else []))

/-- Model of `PDEHamiltonian.time_dependent_evolution(apply_gate_fn,
duration, dt, hamiltonian_type, **kwargs)` (`pde_hamiltonians.py`,
lines 207-257): `steps = int(duration / dt)` (truncation, which agrees with
`Int.floor ... |>.toNat` whenever the resulting range is nonempty); for
each `step` in `range(steps)` the control triple is computed at
`t = step * dt` and `(t, h_long, h_trans, j_coupling)` is appended to the
returned history.  The side effects on the external `apply_gate_fn`
callback are returned alongside as the ordered list of issued gate calls. -/
noncomputable def time_dependent_evolution (nQubits : ℕ) (duration dt : ℝ)
    (htype : String) (kw : HKwargs) :
    List (ℝ × ℝ × ℝ × ℝ) × List (String × ℕ × ℝ) :=
  let steps := (⌊duration / dt⌋).toNat
  ((List.range steps).map (fun (step : ℕ) =>
      let t := (step : ℝ) * dt
      let trip := hamiltonianFor htype kw t
      (t, trip.1, trip.2.1, trip.2.2)),
   (List.range steps).flatMap (fun (step : ℕ) =>
      gateCallsFor nQubits dt (hamiltonianFor htype kw ((step : ℝ) * dt))))

/-- C7: for every time, frequency, amplitude and phase, the wave-model
control triple satisfies `longitudinal^2 + transverse^2 = amplitude^2`,
with `longitudinal = A*cos(omega*t + phase)`,
`transverse = A*sin(omega*t + phase)` for `omega = 2*pi*frequency`, and
`coupling = 0.5*A*cos(2*omega*t)`. -/
theorem wave_amplitude_identity (t frequency amplitude phase : ℝ) :
    (wave_oscillation_hamiltonian t frequency amplitude phase).1 ^ 2 +
      (wave_oscillation_hamiltonian t frequency amplitude phase).2.1 ^ 2 =
      amplitude ^ 2 ∧
    (wave_oscillation_hamiltonian t frequency amplitude phase).1 =
      amplitude * Real.cos (2 * Real.pi * frequency * t + phase) ∧
    (wave_oscillation_hamiltonian t frequency amplitude phase).2.1 =
      amplitude * Real.sin (2 * Real.pi * frequency * t + phase) ∧
    (wave_oscillation_hamiltonian t frequency amplitude phase).2.2 =
      0.5 * amplitude * Real.cos (2 * (2 * Real.pi * frequency) * t) := by
  refine ⟨?_, rfl, rfl, rfl⟩
  simp only [wave_oscillation_hamiltonian]
  rw [mul_pow, mul_pow, ← mul_add, Real.cos_sq_add_sin_sq, mul_one]

/-- A concrete kwargs record (all model parameters at their Python default
values, emotional state "calm", no needs mapping), used by witnesses. -/
noncomputable def kwDefault : HKwargs :=
  ⟨1, 0.5, 1, 1, 0, 1, 10, 1, 0, "calm", none⟩

/-- C8: for positive `duration` and `dt`, `time_dependent_evolution`
returns exactly `floor(duration/dt)` tuples, the `k`-th being
`(k*dt, longitudinal, transverse, coupling)` with the triple computed by
the selected model at time `k*dt`; and two calls with identical arguments
return identical lists (the embedding is a pure function — the four
non-adaptive models use no randomness, so the Python behaviour is a
function of its arguments as well). -/
theorem tde_history_spec (nQubits : ℕ) (duration dt : ℝ) (hdur : 0 < duration)
    (hdt : 0 < dt) (htype : String) (kw : HKwargs) :
    (time_dependent_evolution nQubits duration dt htype kw).1.length =
      (⌊duration / dt⌋).toNat ∧
    (∀ k, k < (time_dependent_evolution nQubits duration dt htype kw).1.length →
      (time_dependent_evolution nQubits duration dt htype kw).1[k]? =
        some ((k : ℝ) * dt, (hamiltonianFor htype kw ((k : ℝ) * dt)).1,
          (hamiltonianFor htype kw ((k : ℝ) * dt)).2.1,
          (hamiltonianFor htype kw ((k : ℝ) * dt)).2.2)) ∧
    time_dependent_evolution nQubits duration dt htype kw =
      time_dependent_evolution nQubits duration dt htype kw := by
  refine ⟨by simp only [time_dependent_evolution, List.length_map, List.length_range],
    ?_, rfl⟩
  intro k hk
  have hk' : k < (⌊duration / dt⌋).toNat := by
    simpa only [time_dependent_evolution, List.length_map, List.length_range] using hk
  simp only [time_dependent_evolution]
  rw [List.getElem?_map, List.getElem?_range hk']
  rfl

/-- Witness for C8: `duration = 1.0`, `dt = 0.1` yields exactly 10 history
entries. -/
theorem tde_history_spec_witness :
    (0 : ℝ) < 1 ∧ (0 : ℝ) < 0.1 ∧
    (time_dependent_evolution 4 1 0.1 "wave" kwDefault).1.length = 10 := by
  have h := (tde_history_spec 4 1 0.1 (by norm_num) (by norm_num) "wave" kwDefault).1
  refine ⟨by norm_num, by norm_num, ?_⟩
  rw [h]
  rw [show (1 : ℝ) / 0.1 = ((10 : ℤ) : ℝ) by norm_num, Int.floor_intCast]
  rfl

/-- C9: for every `hamiltonian_type` string other than exactly "heat",
"wave", "schrodinger" and "reaction_diffusion" — misspellings and other
capitalisations included — `time_dependent_evolution` silently dispatches
to the adaptive model (its output is identical to the `"adaptive"` call,
and the per-step triple is the adaptive model's). -/
theorem tde_unknown_type_adaptive (htype : String) (h1 : htype ≠ "heat")
    (h2 : htype ≠ "wave") (h3 : htype ≠ "schrodinger")
    (h4 : htype ≠ "reaction_diffusion") (nQubits : ℕ) (duration dt : ℝ)
    (kw : HKwargs) :
    time_dependent_evolution nQubits duration dt htype kw =
      time_dependent_evolution nQubits duration dt "adaptive" kw ∧
    (∀ t, hamiltonianFor htype kw t =
      adaptive_hamiltonian t kw.emotional_state kw.needs) := by
  have hf : ∀ t, hamiltonianFor htype kw t =
      adaptive_hamiltonian t kw.emotional_state kw.needs := by
    intro t
    simp [hamiltonianFor, h1, h2, h3, h4]
  have ha : ∀ t, hamiltonianFor "adaptive" kw t =
      adaptive_hamiltonian t kw.emotional_state kw.needs := by
    intro t
    simp [hamiltonianFor]
  refine ⟨?_, hf⟩
  simp only [time_dependent_evolution, hf, ha]

/-- Witness for C9: the miscapitalised type "Wave" is dispatched to the
adaptive model, not the wave model. -/
theorem tde_unknown_type_adaptive_witness :
    time_dependent_evolution 4 1 (1 / 10) "Wave" kwDefault =
      time_dependent_evolution 4 1 (1 / 10) "adaptive" kwDefault :=
  (tde_unknown_type_adaptive "Wave" (by decide) (by decide) (by decide)
    (by decide) 4 1 (1 / 10) kwDefault).1
